import Mathlib

/-!
Verification development for the CSV null-remover program.

The source program (null_remover.py) cleans a tabular dataset: it normalizes the
missing-value spellings to a single sentinel, then fills every missing cell of every
column from nearby non-missing cells (a bounded window of five rows in each
direction, falling back to a column-wide random draw), optionally sorts, writes the
result, and reports counts.  Below, the data model and every operation the claims
need are embedded as executable Lean definitions, translated line by line from the
source; the theorems at the end of the file settle the specification claims.
-/

/-- A table cell.  `none` is the canonical missing sentinel (pandas NaN); `some s`
is a present raw value (the program treats values dynamically; only equality and
missingness matter to the cleaning logic, so the value universe is `String`). -/
abbrev Cell := Option String

/-- A dataframe, column-oriented: each entry is a column name paired with that
column's cells in row order.  Row order inside each list is the dataframe's row
order (a fresh `pd.read_csv` dataframe has the range index 0,1,2,...). -/
abbrev Frame := List (String × List Cell)

/-- The random source behind `random.choice`: given the number of draws made so far
and the sequence passed to `random.choice`, it yields a number; the element at that
number modulo the sequence length is the one chosen.  Quantifying over all such
functions quantifies over every behaviour of the random source. -/
abbrev RNG := Nat → List String → Nat

/-- The four missing-marker spellings replaced by NaN at line 38 of the source:
`df.replace(['', 'NULL', 'null', 'None'], np.nan)`. -/
def missingMarkers : List String := ["", "NULL", "null", "None"]

/-- Normalization of one cell (line 38): any of the four marker strings becomes the
missing sentinel; everything else is untouched. -/
def normalizeCell (c : Cell) : Cell :=
  match c with
  | none => none
  | some s => if s ∈ missingMarkers then none else some s

/-- Normalization of a whole frame (line 38 acts on the whole dataframe). -/
def normalizeFrame (df : Frame) : Frame :=
  df.map (fun p => (p.1, p.2.map normalizeCell))

/-- First non-missing value of a list of cells, if any.  This is the body shared by
the two scan loops (lines 51-54 and 57-60): walk the cells in order, stop at the
first non-missing one. -/
def firstHit : List Cell → Option String
  | [] => none
  | some v :: _ => some v
  | none :: rest => firstHit rest

/-- The cells examined by the upward scan, in scan order.  The source loop is
`for i in range(idx-1, max(-1, idx-6), -1)` (lines 51-54), which visits exactly
`min 5 idx` indices `idx-1, idx-2, ...` (the inner `i >= 0` guard is always true
inside this range). -/
def upWindow (col : List Cell) (idx : Nat) : List Cell :=
  (List.range (min 5 idx)).map (fun k => col.getD (idx - (k+1)) none)

/-- The cells examined by the downward scan, in scan order.  The source loop is
`for i in range(idx+1, min(len(df), idx+6))` (lines 57-60), which visits exactly
`min 5 (len - (idx+1))` indices `idx+1, idx+2, ...`. -/
def downWindow (col : List Cell) (idx : Nat) : List Cell :=
  (List.range (min 5 (col.length - (idx+1)))).map (fun k => col.getD (idx+1+k) none)

/-- The "above" candidate: first non-missing value met scanning up (lines 51-54). -/
def scanUp (col : List Cell) (idx : Nat) : Option String :=
  firstHit (upWindow col idx)

/-- The "below" candidate: first non-missing value met scanning down (lines 57-60). -/
def scanDown (col : List Cell) (idx : Nat) : Option String :=
  firstHit (downWindow col idx)

/-- The `adjacent_values` list (lines 48-60): the above candidate, if any, followed
by the below candidate, if any. -/
def candidates (col : List Cell) (idx : Nat) : List String :=
  (scanUp col idx).toList ++ (scanDown col idx).toList

/-- `df[column].dropna().tolist()` (line 68): the column's current non-missing
values in row order. -/
def nonNull (col : List Cell) : List String := col.filterMap id

/-- `random.choice(l)` under the random source `ch` after `t` prior draws: an
element of `l` (the index is reduced modulo the length; `""` is the irrelevant
default for the empty list, on which the source never calls `random.choice`). -/
def choose (ch : RNG) (t : Nat) (l : List String) : String :=
  l.getD (ch t l % l.length) ""

/-- Processing of one missing cell (lines 46-71).  The state is the current column
buffer together with the number of random draws made so far and the running
`replaced_in_column` counter.  If the candidate list is non-empty the cell is set
to a random candidate; otherwise, if the column currently has any non-missing
value, the cell is set to a random one of those; otherwise the cell is left
missing and the counter does not move. -/
def fillCell (ch : RNG) (st : List Cell × Nat × Nat) (idx : Nat) : List Cell × Nat × Nat :=
  let col := st.1
  let cands := candidates col idx
  if cands ≠ [] then
    (col.set idx (some (choose ch st.2.1 cands)), st.2.1 + 1, st.2.2 + 1)
  else
    let nn := nonNull col
    if nn ≠ [] then
      (col.set idx (some (choose ch st.2.1 nn)), st.2.1 + 1, st.2.2 + 1)
    else (col, st.2.1, st.2.2)

/-- `df[df[column].isnull()].index.tolist()` (line 43): the row indices of the
column's missing cells, in ascending row order, computed once before the pass. -/
def missingIndices (col : List Cell) : List Nat :=
  (List.range col.length).filter (fun i => (col.getD i none).isNone)

/-- One column pass (lines 43-71): fold `fillCell` over the missing indices, each
step reading and mutating the current column buffer.  `t` is the number of random
draws made before this column; the result carries the new column, the new draw
count, and `replaced_in_column`. -/
def processColumn (ch : RNG) (t : Nat) (col : List Cell) : List Cell × Nat × Nat :=
  (missingIndices col).foldl (fillCell ch) (col, t, 0)

/-- Modelled from the spec, as a contrast for the no-snapshot requirement: the same
step as `fillCell` except that the candidate search and the fallback pool read the
pre-pass snapshot `orig` of the column instead of the current buffer.  The source
does NOT do this; the definition exists only to be distinguished from
`processColumn`. -/
def fillCellSnapshot (ch : RNG) (orig : List Cell) (st : List Cell × Nat × Nat)
    (idx : Nat) : List Cell × Nat × Nat :=
  let col := st.1
  let cands := candidates orig idx
  if cands ≠ [] then
    (col.set idx (some (choose ch st.2.1 cands)), st.2.1 + 1, st.2.2 + 1)
  else
    let nn := nonNull orig
    if nn ≠ [] then
      (col.set idx (some (choose ch st.2.1 nn)), st.2.1 + 1, st.2.2 + 1)
    else (col, st.2.1, st.2.2)

/-- The snapshot variant of the column pass (hypothetical; see `fillCellSnapshot`). -/
def processColumnSnapshot (ch : RNG) (t : Nat) (col : List Cell) : List Cell × Nat × Nat :=
  (missingIndices col).foldl (fillCellSnapshot ch col) (col, t, 0)

/-- The column loop (lines 41-75), columns processed left to right, the random
draw counter threaded through.  Returns the new frame, the final draw count, and
`total_replaced`. -/
def imputeGo (ch : RNG) (t : Nat) : Frame → Frame × Nat × Nat
  | [] => ([], t, 0)
  | (n, col) :: rest =>
    let p := processColumn ch t col
    let q := imputeGo ch p.2.1 rest
    ((n, p.1) :: q.1, q.2.1, p.2.2 + q.2.2)

/-- The whole imputation pass: new frame and `total_replaced`. -/
def impute (ch : RNG) (df : Frame) : Frame × Nat :=
  let g := imputeGo ch 0 df
  (g.1, g.2.2)

/-- Number of cells of the frame satisfying a predicate (a `(df == x).sum().sum()`
style count). -/
def countCells (p : Cell → Bool) (df : Frame) : Nat :=
  (df.map (fun c => c.2.countP p)).sum

/-- A cell equal to the empty string (`df == ''`). -/
def isBlankStr (c : Cell) : Bool := decide (c = some "")

/-- A cell equal to the literal string `"NULL"` (`df == 'NULL'`). -/
def isNullStr (c : Cell) : Bool := decide (c = some "NULL")

/-- A cell equal to the literal string `"null"`. -/
def isNullLowerStr (c : Cell) : Bool := decide (c = some "null")

/-- A cell equal to the literal string `"None"`. -/
def isNoneStr (c : Cell) : Bool := decide (c = some "None")

/-- Line 34: `df.isnull().sum().sum() + (df == '').sum().sum() + (df == 'NULL').sum().sum()`. -/
def nullCountBefore (df : Frame) : Nat :=
  countCells Option.isNone df + countCells isBlankStr df + countCells isNullStr df

/-- Line 78: `df.isnull().sum().sum() + (df == '').sum().sum()`. -/
def nullCountAfter (df : Frame) : Nat :=
  countCells Option.isNone df + countCells isBlankStr df

/-- A cell that is missing under the spec's four-form definition: the native
sentinel, the empty string, `"NULL"`, `"null"`, or `"None"`. -/
def fourFormMissing (c : Cell) : Bool :=
  c.isNone || isBlankStr c || isNullStr c || isNullLowerStr c || isNoneStr c

/-- Missing-cell count of one column. -/
def missingCount (col : List Cell) : Nat := col.countP Option.isNone

/-- `df.columns` of the frame. -/
def colNames (df : Frame) : List String := df.map Prod.fst

/-- `len(df)`: the number of rows (length of the first column; 0 for a frame with
no columns). -/
def rowCount (df : Frame) : Nat :=
  match df with
  | [] => 0
  | c :: _ => c.2.length

/-- Lines 96-106: if the caller requested no usable sort column but the hotel date
columns are present, the date sort runs with no surrounding handler, so its failure
escapes to the outer handler. -/
def dateBranch (ds : Frame → Except String Frame) (df2 : Frame) : Except String Frame :=
  if "arrival_date_year" ∈ colNames df2 ∧ "arrival_date_month" ∈ colNames df2 then
    ds df2
  else Except.ok df2

/-- Lines 81-106: the sorting stage applied to the imputed frame.  A requested
column present in the frame is sorted under an inner handler (lines 84-95): on
failure the frame proceeds unsorted.  Otherwise the date branch applies. -/
def sortStage (sortCol : Option String) (sorter ds : Frame → Except String Frame)
    (df2 : Frame) : Except String Frame :=
  match sortCol with
  | some c =>
    if c ∈ colNames df2 then
      match sorter df2 with
      | Except.ok d => Except.ok d
      | Except.error _ => Except.ok df2
    else dateBranch ds df2
  | none => dateBranch ds df2

/-- Lines 77-113 after imputation: count the remaining missing cells, sort, write,
and return `(len(df), total_replaced, null_count_after)`; a failure of the date
sort or of the writer escapes to the outer handler, which returns `(0, 0, 0)`
(line 117). -/
def sortWriteStage (sortCol : Option String) (sorter ds : Frame → Except String Frame)
    (writer : Frame → Except String Unit) (p : Frame × Nat) : Nat × Nat × Nat :=
  match sortStage sortCol sorter ds p.1 with
  | Except.error _ => (0, 0, 0)
  | Except.ok df3 =>
    match writer df3 with
    | Except.error _ => (0, 0, 0)
    | Except.ok _ => (rowCount df3, p.2, nullCountAfter p.1)

/-- `clean_csv_file` (lines 14-117).  The fallible collaborators are injected: the
load result (line 27), the requested sort column, the requested-column sorter and
the date sorter (lines 81-106), and the writer (line 109).  Every failure that
reaches the outer `except` (lines 115-117) yields the triple `(0, 0, 0)`. -/
def cleanCsvFile (ch : RNG) (loadRes : Except String Frame) (sortCol : Option String)
    (sorter ds : Frame → Except String Frame) (writer : Frame → Except String Unit) :
    Nat × Nat × Nat :=
  match loadRes with
  | Except.error _ => (0, 0, 0)
  | Except.ok df => sortWriteStage sortCol sorter ds writer (impute ch (normalizeFrame df))

/-- `os.path.splitext(p)[1]` (line 124): the extension of the final path
component, the part from its last dot on, empty when every character before that
dot in the component is itself a dot. -/
def extOf (path : String) : String :=
  let base := (path.data.reverse.takeWhile (fun c => c ≠ '/')).reverse
  let revBase := base.reverse
  let extRev := revBase.takeWhile (fun c => c ≠ '.')
  if extRev.length = revBase.length then ""
  else
    let stem := revBase.drop (extRev.length + 1)
    if stem.any (fun c => c ≠ '.') then String.mk ('.' :: extRev.reverse) else ""

/-- `os.path.splitext(p)[1].lower()` (line 124). -/
def lowerExt (path : String) : String := String.mk ((extOf path).data.map Char.toLower)

/-- `p.rsplit('.', 1)[0]` (lines 128 and 133): the part of the whole path before
its last dot (the whole path when it has no dot). -/
def rsplitStem (path : String) : String :=
  let rev := path.data.reverse
  let pre := rev.takeWhile (fun c => c ≠ '.')
  if pre.length = rev.length then path
  else String.mk ((rev.drop (pre.length + 1)).reverse)

/-- `convert_to_csv` (lines 119-140): dispatch on the lower-cased extension.  The
branches for `.xls`/`.xlsx` and `.json` read the file and write a sibling `.csv`
(the contents are out of scope here; the returned path is what the claims are
about); the `.csv` branch returns the path unchanged; any other extension raises
before anything is read. -/
def convertToCsv (path : String) : Except String String :=
  let ext := lowerExt path
  if ext = ".xls" ∨ ext = ".xlsx" then Except.ok (rsplitStem path ++ ".csv")
  else if ext = ".json" then Except.ok (rsplitStem path ++ ".csv")
  else if ext = ".csv" then Except.ok path
  else Except.error "Unsupported file type. Please provide a CSV, Excel, or JSON file."

/-- Whether `convert_to_csv` on this path reaches a branch that loads the file's
contents (the `pd.read_excel` / `pd.read_json` calls at lines 127 and 132); read
off the same extension dispatch as `convertToCsv`. -/
def convertLoadsInput (path : String) : Bool :=
  let ext := lowerExt path
  decide (ext = ".xls" ∨ ext = ".xlsx" ∨ ext = ".json")

/-- The random source that always picks the first element offered (the "above"
candidate when both exist). -/
def chFirst : RNG := fun _ _ => 0

/-- A nine-row column with values only at the two ends; rows 1-7 are missing. -/
def exCol9 : List Cell :=
  [some "5", none, none, none, none, none, none, none, some "9"]

/-- A cell counted by line 34 of the source: the native sentinel, the empty string,
or the literal `"NULL"` (the spellings `"null"` and `"None"` are NOT counted there,
though line 38 normalizes them). -/
def threeFormMissing (c : Cell) : Bool :=
  c.isNone || isBlankStr c || isNullStr c

/-- Whether an `Except` result is a success. -/
def exceptIsOk (r : Except String String) : Bool :=
  match r with
  | Except.ok _ => true
  | Except.error _ => false

/-! ### Helper lemmas about lists, `getD`, and `set` -/

theorem getD_set_self {l : List Cell} {i : Nat} (a d : Cell) (h : i < l.length) :
    (l.set i a).getD i d = a := by
  induction l generalizing i with
  | nil => simp at h
  | cons hd tl ih =>
    cases i with
    | zero => simp [List.set, List.getD]
    | succ n =>
      simp only [List.set, List.getD_cons_succ]
      exact ih (by simpa using h)

theorem getD_set_ne {l : List Cell} {i j : Nat} (a d : Cell) (h : i ≠ j) :
    (l.set i a).getD j d = l.getD j d := by
  induction l generalizing i j with
  | nil => simp [List.set]
  | cons hd tl ih =>
    cases i with
    | zero =>
      cases j with
      | zero => exact absurd rfl h
      | succ m => simp [List.set, List.getD_cons_succ]
    | succ n =>
      cases j with
      | zero => simp [List.set, List.getD_cons_zero]
      | succ m =>
        simp only [List.set, List.getD_cons_succ]
        exact ih (fun hnm => h (by rw [hnm]))

theorem getD_of_all_none {l : List Cell} (h : ∀ c ∈ l, c = none) (k : Nat) :
    l.getD k none = none := by
  induction l generalizing k with
  | nil => simp [List.getD]
  | cons hd tl ih =>
    cases k with
    | zero => simpa using h hd (by simp)
    | succ m =>
      simp only [List.getD_cons_succ]
      exact ih (fun c hc => h c (by simp [hc])) m

theorem firstHit_eq_some_iff (l : List Cell) (v : String) :
    firstHit l = some v ↔
      ∃ k, l.getD k none = some v ∧ ∀ j, j < k → l.getD j none = none := by
  induction l with
  | nil =>
    simp only [firstHit, List.getD]
    constructor
    · intro h; cases h
    · rintro ⟨k, hk, _⟩; simp at hk
  | cons hd tl ih =>
    cases hd with
    | some w =>
      simp only [firstHit]
      constructor
      · intro h
        exact ⟨0, by simpa using h, fun j hj => absurd hj (Nat.not_lt_zero j)⟩
      · rintro ⟨k, hk, hfirst⟩
        cases k with
        | zero => simpa using hk
        | succ m =>
          have h0 := hfirst 0 (Nat.succ_pos m)
          simp at h0
    | none =>
      simp only [firstHit]
      rw [ih]
      constructor
      · rintro ⟨k, hk, hfirst⟩
        refine ⟨k + 1, by simpa using hk, ?_⟩
        intro j hj
        cases j with
        | zero => simp
        | succ m => simpa using hfirst m (Nat.lt_of_succ_lt_succ hj)
      · rintro ⟨k, hk, hfirst⟩
        cases k with
        | zero => simp at hk
        | succ m =>
          refine ⟨m, by simpa using hk, ?_⟩
          intro j hj
          simpa using hfirst (j + 1) (Nat.succ_lt_succ hj)

theorem firstHit_eq_none_iff (l : List Cell) :
    firstHit l = none ↔ ∀ c ∈ l, c = none := by
  induction l with
  | nil => simp [firstHit]
  | cons hd tl ih =>
    cases hd with
    | some w => simp [firstHit]
    | none => simpa [firstHit] using ih

theorem nonNull_eq_nil_iff (col : List Cell) :
    nonNull col = [] ↔ ∀ c ∈ col, c = none := by
  induction col with
  | nil => simp [nonNull]
  | cons hd tl ih =>
    cases hd with
    | some w => simp [nonNull, List.filterMap_cons]
    | none => simp [nonNull, List.filterMap_cons]

theorem choose_mem {l : List String} (ch : RNG) (t : Nat) (h : l ≠ []) :
    choose ch t l ∈ l := by
  have hlen : 0 < l.length := List.length_pos.mpr h
  have hmod : ch t l % l.length < l.length := Nat.mod_lt _ hlen
  unfold choose
  rw [List.getD_eq_getElem?_getD, List.getElem?_eq_getElem hmod]
  exact List.getElem_mem hmod

theorem set_of_length_le {l : List Cell} {i : Nat} (a : Cell) (h : l.length ≤ i) :
    l.set i a = l := by
  induction l generalizing i with
  | nil => simp
  | cons hd tl ih =>
    cases i with
    | zero => simp at h
    | succ n => simp only [List.set]; rw [ih (by simpa using h)]

theorem getD_mem_of_isSome {l : List Cell} {k : Nat} (h : (l.getD k none).isSome) :
    l.getD k none ∈ l := by
  rw [List.getD_eq_getElem?_getD] at h ⊢
  by_cases hk : k < l.length
  · rw [List.getElem?_eq_getElem hk]
    exact List.getElem_mem hk
  · rw [List.getElem?_eq_none (by omega)] at h
    simp at h

/-! ### Branch analysis of `fillCell` -/

theorem fillCell_cases (ch : RNG) (st : List Cell × Nat × Nat) (idx : Nat) :
    (candidates st.1 idx ≠ [] ∧
      fillCell ch st idx =
        (st.1.set idx (some (choose ch st.2.1 (candidates st.1 idx))),
          st.2.1 + 1, st.2.2 + 1))
    ∨ (candidates st.1 idx = [] ∧ nonNull st.1 ≠ [] ∧
      fillCell ch st idx =
        (st.1.set idx (some (choose ch st.2.1 (nonNull st.1))),
          st.2.1 + 1, st.2.2 + 1))
    ∨ (candidates st.1 idx = [] ∧ nonNull st.1 = [] ∧ fillCell ch st idx = st) := by
  by_cases hc : candidates st.1 idx ≠ []
  · exact Or.inl ⟨hc, by simp [fillCell, hc]⟩
  · push_neg at hc
    by_cases hn : nonNull st.1 ≠ []
    · exact Or.inr (Or.inl ⟨hc, hn, by simp [fillCell, hc, hn]⟩)
    · push_neg at hn
      exact Or.inr (Or.inr ⟨hc, hn, by simp [fillCell, hc, hn]⟩)

theorem fillCell_length (ch : RNG) (st : List Cell × Nat × Nat) (idx : Nat) :
    (fillCell ch st idx).1.length = st.1.length := by
  rcases fillCell_cases ch st idx with ⟨_, h⟩ | ⟨_, _, h⟩ | ⟨_, _, h⟩ <;>
    rw [h] <;> simp [List.length_set]

theorem fillCell_getD_ne (ch : RNG) (st : List Cell × Nat × Nat) {idx j : Nat}
    (h : idx ≠ j) : (fillCell ch st idx).1.getD j none = st.1.getD j none := by
  rcases fillCell_cases ch st idx with ⟨_, he⟩ | ⟨_, _, he⟩ | ⟨_, _, he⟩ <;> rw [he]
  · exact getD_set_ne _ _ h
  · exact getD_set_ne _ _ h

theorem nonNull_ne_nil_of_getD {col : List Cell} {k : Nat}
    (h : (col.getD k none).isSome) : nonNull col ≠ [] := by
  intro habs
  have hall := (nonNull_eq_nil_iff col).mp habs
  rw [getD_of_all_none hall k] at h
  simp at h

theorem exists_getD_isSome_of_nonNull {col : List Cell} (h : nonNull col ≠ []) :
    ∃ k, (col.getD k none).isSome := by
  by_contra hno
  push_neg at hno
  apply h
  apply (nonNull_eq_nil_iff col).mpr
  intro c hc
  obtain ⟨i, hi, hci⟩ := List.mem_iff_getElem.mp hc
  have hgd : col.getD i none = c := by
    rw [List.getD_eq_getElem?_getD, List.getElem?_eq_getElem hi, hci]; rfl
  have := hno i
  rw [hgd] at this
  exact Option.not_isSome_iff_eq_none.mp this

theorem fillCell_isSome_mono (ch : RNG) (st : List Cell × Nat × Nat) {idx j : Nat}
    (h : (st.1.getD j none).isSome) :
    ((fillCell ch st idx).1.getD j none).isSome := by
  by_cases hij : idx = j
  · subst hij
    by_cases hlt : idx < st.1.length
    · rcases fillCell_cases ch st idx with ⟨_, he⟩ | ⟨_, _, he⟩ | ⟨_, _, he⟩ <;> rw [he]
      · rw [getD_set_self _ _ hlt]; rfl
      · rw [getD_set_self _ _ hlt]; rfl
      · exact h
    · rcases fillCell_cases ch st idx with ⟨_, he⟩ | ⟨_, _, he⟩ | ⟨_, _, he⟩ <;> rw [he]
      · rw [set_of_length_le _ (by omega : st.1.length ≤ idx)]; exact h
      · rw [set_of_length_le _ (by omega : st.1.length ≤ idx)]; exact h
      · exact h
  · rw [fillCell_getD_ne ch st hij]; exact h

theorem fillCell_hasVal (ch : RNG) (st : List Cell × Nat × Nat) (idx : Nat)
    (h : nonNull st.1 ≠ []) : nonNull (fillCell ch st idx).1 ≠ [] := by
  obtain ⟨k, hk⟩ := exists_getD_isSome_of_nonNull h
  exact nonNull_ne_nil_of_getD (fillCell_isSome_mono ch st hk)

theorem fillCell_fills (ch : RNG) (st : List Cell × Nat × Nat) {idx : Nat}
    (hlt : idx < st.1.length) (h : nonNull st.1 ≠ []) :
    ((fillCell ch st idx).1.getD idx none).isSome := by
  rcases fillCell_cases ch st idx with ⟨_, he⟩ | ⟨_, _, he⟩ | ⟨_, hn, he⟩ <;> rw [he]
  · rw [getD_set_self _ _ hlt]; rfl
  · rw [getD_set_self _ _ hlt]; rfl
  · exact absurd hn h

/-! ### Invariants of the column pass (the fold of `fillCell`) -/

theorem foldl_fill_length (ch : RNG) (idxs : List Nat) :
    ∀ st : List Cell × Nat × Nat,
      ((idxs.foldl (fillCell ch) st).1.length = st.1.length) := by
  induction idxs with
  | nil => intro st; rfl
  | cons i rest ih =>
    intro st
    rw [List.foldl_cons, ih (fillCell ch st i), fillCell_length]

theorem foldl_fill_getD_not_mem (ch : RNG) (idxs : List Nat) :
    ∀ (st : List Cell × Nat × Nat) (j : Nat), j ∉ idxs →
      (idxs.foldl (fillCell ch) st).1.getD j none = st.1.getD j none := by
  induction idxs with
  | nil => intro st j _; rfl
  | cons i rest ih =>
    intro st j hj
    rw [List.foldl_cons, ih (fillCell ch st i) j (fun h => hj (List.mem_cons_of_mem i h)),
      fillCell_getD_ne ch st
        (fun h : i = j => hj (by rw [← h]; exact List.mem_cons_self i rest))]

theorem foldl_fill_hasVal (ch : RNG) (idxs : List Nat) :
    ∀ st : List Cell × Nat × Nat, nonNull st.1 ≠ [] →
      nonNull ((idxs.foldl (fillCell ch) st).1) ≠ [] := by
  induction idxs with
  | nil => intro st h; exact h
  | cons i rest ih =>
    intro st h
    rw [List.foldl_cons]
    exact ih _ (fillCell_hasVal ch st i h)

theorem foldl_fill_all (ch : RNG) (idxs : List Nat) :
    ∀ st : List Cell × Nat × Nat, nonNull st.1 ≠ [] →
      ∀ j, ((j ∈ idxs ∧ j < st.1.length) ∨ (st.1.getD j none).isSome) →
        (((idxs.foldl (fillCell ch) st).1.getD j none)).isSome := by
  induction idxs with
  | nil =>
    intro st _ j hj
    rcases hj with ⟨hmem, _⟩ | hsome
    · simp at hmem
    · exact hsome
  | cons i rest ih =>
    intro st hnn j hj
    rw [List.foldl_cons]
    apply ih (fillCell ch st i) (fillCell_hasVal ch st i hnn)
    rcases hj with ⟨hmem, hlt⟩ | hsome
    · rcases List.mem_cons.mp hmem with rfl | hrest
      · exact Or.inr (fillCell_fills ch st hlt hnn)
      · exact Or.inl ⟨hrest, by rw [fillCell_length]; exact hlt⟩
    · exact Or.inr (fillCell_isSome_mono ch st hsome)

theorem mem_missingIndices (col : List Cell) (j : Nat) :
    j ∈ missingIndices col ↔ j < col.length ∧ (col.getD j none).isNone := by
  unfold missingIndices
  rw [List.mem_filter, List.mem_range]

theorem processColumn_complete (ch : RNG) (t : Nat) (col : List Cell)
    (h : nonNull col ≠ []) : missingCount (processColumn ch t col).1 = 0 := by
  unfold processColumn missingCount
  apply List.countP_eq_zero.mpr
  intro a ha
  obtain ⟨i, hi, hci⟩ := List.mem_iff_getElem.mp ha
  have hlen : ((missingIndices col).foldl (fillCell ch) (col, t, 0)).1.length = col.length :=
    foldl_fill_length ch (missingIndices col) (col, t, 0)
  have hilt : i < col.length := by rw [hlen] at hi; exact hi
  have hgd : ((missingIndices col).foldl (fillCell ch) (col, t, 0)).1.getD i none = a := by
    rw [List.getD_eq_getElem?_getD, List.getElem?_eq_getElem hi, hci]; rfl
  have hsome : (((missingIndices col).foldl (fillCell ch) (col, t, 0)).1.getD i none).isSome := by
    apply foldl_fill_all ch (missingIndices col) (col, t, 0) h i
    by_cases hmiss : (col.getD i none).isNone
    · exact Or.inl ⟨(mem_missingIndices col i).mpr ⟨hilt, hmiss⟩, hilt⟩
    · right
      show (col.getD i none).isSome
      cases hcd : col.getD i none with
      | none => rw [hcd] at hmiss; simp at hmiss
      | some v => rfl
  rw [hgd] at hsome
  cases a with
  | none => simp at hsome
  | some v => simp

/-! ### Characterization of the two scans -/

theorem upWindow_getD {col : List Cell} {idx k : Nat} (hk : k < min 5 idx) :
    (upWindow col idx).getD k none = col.getD (idx - (k+1)) none := by
  unfold upWindow
  rw [List.getD_eq_getElem?_getD, List.getElem?_map, List.getElem?_range hk]
  rfl

theorem upWindow_getD_oob {col : List Cell} {idx k : Nat} (hk : ¬ k < min 5 idx) :
    (upWindow col idx).getD k none = none := by
  unfold upWindow
  rw [List.getD_eq_getElem?_getD, List.getElem?_eq_none]
  · rfl
  · rw [List.length_map, List.length_range]; omega

theorem downWindow_getD {col : List Cell} {idx k : Nat}
    (hk : k < min 5 (col.length - (idx+1))) :
    (downWindow col idx).getD k none = col.getD (idx+1+k) none := by
  unfold downWindow
  rw [List.getD_eq_getElem?_getD, List.getElem?_map, List.getElem?_range hk]
  rfl

theorem downWindow_getD_oob {col : List Cell} {idx k : Nat}
    (hk : ¬ k < min 5 (col.length - (idx+1))) :
    (downWindow col idx).getD k none = none := by
  unfold downWindow
  rw [List.getD_eq_getElem?_getD, List.getElem?_eq_none]
  · rfl
  · rw [List.length_map, List.length_range]; omega

theorem scanUp_eq_some_iff (col : List Cell) (idx : Nat) (v : String) :
    scanUp col idx = some v ↔
      ∃ k, k < min 5 idx ∧ col.getD (idx - (k+1)) none = some v ∧
        ∀ j, j < k → col.getD (idx - (j+1)) none = none := by
  unfold scanUp
  rw [firstHit_eq_some_iff]
  constructor
  · rintro ⟨k, hk, hfirst⟩
    have hklt : k < min 5 idx := by
      by_contra hge
      rw [upWindow_getD_oob hge] at hk
      cases hk
    refine ⟨k, hklt, ?_, ?_⟩
    · rw [← upWindow_getD hklt]; exact hk
    · intro j hj
      rw [← upWindow_getD (Nat.lt_trans hj hklt)]
      exact hfirst j hj
  · rintro ⟨k, hklt, hv, hbefore⟩
    refine ⟨k, ?_, ?_⟩
    · rw [upWindow_getD hklt]; exact hv
    · intro j hj
      rw [upWindow_getD (Nat.lt_trans hj hklt)]
      exact hbefore j hj

theorem scanDown_eq_some_iff (col : List Cell) (idx : Nat) (v : String) :
    scanDown col idx = some v ↔
      ∃ k, k < min 5 (col.length - (idx+1)) ∧ col.getD (idx+1+k) none = some v ∧
        ∀ j, j < k → col.getD (idx+1+j) none = none := by
  unfold scanDown
  rw [firstHit_eq_some_iff]
  constructor
  · rintro ⟨k, hk, hfirst⟩
    have hklt : k < min 5 (col.length - (idx+1)) := by
      by_contra hge
      rw [downWindow_getD_oob hge] at hk
      cases hk
    refine ⟨k, hklt, ?_, ?_⟩
    · rw [← downWindow_getD hklt]; exact hk
    · intro j hj
      rw [← downWindow_getD (Nat.lt_trans hj hklt)]
      exact hfirst j hj
  · rintro ⟨k, hklt, hv, hbefore⟩
    refine ⟨k, ?_, ?_⟩
    · rw [downWindow_getD hklt]; exact hv
    · intro j hj
      rw [downWindow_getD (Nat.lt_trans hj hklt)]
      exact hbefore j hj

theorem scanUp_eq_none_iff (col : List Cell) (idx : Nat) :
    scanUp col idx = none ↔ ∀ k, k < min 5 idx → col.getD (idx - (k+1)) none = none := by
  unfold scanUp
  rw [firstHit_eq_none_iff]
  constructor
  · intro hall k hk
    exact hall _ (List.mem_map.mpr ⟨k, List.mem_range.mpr hk, rfl⟩)
  · intro hall c hc
    obtain ⟨k, hk, rfl⟩ := List.mem_map.mp hc
    rw [List.mem_range] at hk
    exact hall k hk

theorem scanDown_eq_none_iff (col : List Cell) (idx : Nat) :
    scanDown col idx = none ↔
      ∀ k, k < min 5 (col.length - (idx+1)) → col.getD (idx+1+k) none = none := by
  unfold scanDown
  rw [firstHit_eq_none_iff]
  constructor
  · intro hall k hk
    exact hall _ (List.mem_map.mpr ⟨k, List.mem_range.mpr hk, rfl⟩)
  · intro hall c hc
    obtain ⟨k, hk, rfl⟩ := List.mem_map.mp hc
    rw [List.mem_range] at hk
    exact hall k hk

theorem candidates_all_missing {col : List Cell} (h : ∀ c ∈ col, c = none) (idx : Nat) :
    candidates col idx = [] := by
  have hup : scanUp col idx = none := by
    apply (firstHit_eq_none_iff _).mpr
    intro c hc
    obtain ⟨k, _, rfl⟩ := List.mem_map.mp hc
    exact getD_of_all_none h _
  have hdown : scanDown col idx = none := by
    apply (firstHit_eq_none_iff _).mpr
    intro c hc
    obtain ⟨k, _, rfl⟩ := List.mem_map.mp hc
    exact getD_of_all_none h _
  unfold candidates
  rw [hup, hdown]
  rfl

theorem processColumn_all_missing (ch : RNG) (t : Nat) {col : List Cell}
    (h : ∀ c ∈ col, c = none) : processColumn ch t col = (col, t, 0) := by
  unfold processColumn
  have hstep : ∀ (l : List Nat) (a b : Nat), l.foldl (fillCell ch) (col, a, b) = (col, a, b) := by
    intro l
    induction l with
    | nil => intro a b; rfl
    | cons i rest ih =>
      intro a b
      rw [List.foldl_cons]
      have : fillCell ch (col, a, b) i = (col, a, b) := by
        rcases fillCell_cases ch (col, a, b) i with ⟨hc, _⟩ | ⟨_, hn, _⟩ | ⟨_, _, he⟩
        · exact absurd (candidates_all_missing h i) hc
        · exact absurd ((nonNull_eq_nil_iff col).mpr h) hn
        · exact he
      rw [this, ih]
  exact hstep _ t 0

/-! ### Shape and monotonicity of the whole imputation pass -/

theorem processColumn_length (ch : RNG) (t : Nat) (col : List Cell) :
    (processColumn ch t col).1.length = col.length :=
  foldl_fill_length ch (missingIndices col) (col, t, 0)

theorem processColumn_preserves (ch : RNG) (t : Nat) (col : List Cell) (j : Nat)
    (v : String) (h : col.getD j none = some v) :
    (processColumn ch t col).1.getD j none = some v := by
  unfold processColumn
  rw [foldl_fill_getD_not_mem]
  · exact h
  · intro hmem
    have := ((mem_missingIndices col j).mp hmem).2
    rw [h] at this
    cases this

theorem missingIndices_pairwise (col : List Cell) :
    List.Pairwise (· < ·) (missingIndices col) :=
  (List.pairwise_lt_range _).sublist (List.filter_sublist _)

theorem imputeGo_colNames (ch : RNG) (df : Frame) :
    ∀ t, colNames (imputeGo ch t df).1 = colNames df := by
  induction df with
  | nil => intro t; rfl
  | cons hd rest ih =>
    intro t
    obtain ⟨n, col⟩ := hd
    show colNames ((n, (processColumn ch t col).1) ::
      (imputeGo ch (processColumn ch t col).2.1 rest).1) = colNames ((n, col) :: rest)
    unfold colNames
    rw [List.map_cons, List.map_cons]
    have := ih (processColumn ch t col).2.1
    unfold colNames at this
    rw [this]

theorem imputeGo_colLengths (ch : RNG) (df : Frame) :
    ∀ t, (imputeGo ch t df).1.map (fun p => p.2.length) = df.map (fun p => p.2.length) := by
  induction df with
  | nil => intro t; rfl
  | cons hd rest ih =>
    intro t
    obtain ⟨n, col⟩ := hd
    show ((n, (processColumn ch t col).1) ::
      (imputeGo ch (processColumn ch t col).2.1 rest).1).map (fun p => p.2.length)
        = ((n, col) :: rest).map (fun p => p.2.length)
    rw [List.map_cons, List.map_cons, ih (processColumn ch t col).2.1]
    show ((processColumn ch t col).1.length :: _ : List Nat) = col.length :: _
    rw [processColumn_length]

/-! ### Counting lemmas -/

theorem countP_add_disjoint (p q : Cell → Bool)
    (hdisj : ∀ c, ¬(p c = true ∧ q c = true)) :
    ∀ l : List Cell, l.countP p + l.countP q = l.countP (fun c => p c || q c) := by
  intro l
  induction l with
  | nil => rfl
  | cons c tl ih =>
    rw [List.countP_cons, List.countP_cons, List.countP_cons]
    cases hp : p c <;> cases hq : q c
    · rw [← ih]; simp
    · rw [← ih]; simp; omega
    · rw [← ih]; simp; omega
    · exact absurd ⟨hp, hq⟩ (hdisj c)

theorem countCells_cons (p : Cell → Bool) (hd : String × List Cell) (rest : Frame) :
    countCells p (hd :: rest) = hd.2.countP p + countCells p rest := by
  unfold countCells
  rw [List.map_cons, List.sum_cons]

theorem normalizeCell_idem (c : Cell) : normalizeCell (normalizeCell c) = normalizeCell c := by
  cases c with
  | none => rfl
  | some s =>
    by_cases h : s ∈ missingMarkers
    · simp [normalizeCell, h]
    · simp [normalizeCell, h]

theorem candidates_length_le_two (col : List Cell) (idx : Nat) :
    (candidates col idx).length ≤ 2 := by
  unfold candidates
  cases scanUp col idx <;> cases scanDown col idx <;> simp

theorem countP_threeForm (l : List Cell) :
    l.countP Option.isNone + l.countP isBlankStr + l.countP isNullStr
      = l.countP threeFormMissing := by
  have hd1 : ∀ c : Cell, ¬(Option.isNone c = true ∧ isBlankStr c = true) := by
    rintro c ⟨h1, h2⟩
    have hc1 : c = none := Option.isNone_iff_eq_none.mp h1
    have hc2 : c = some "" := of_decide_eq_true h2
    rw [hc1] at hc2
    cases hc2
  have hd2 : ∀ c : Cell,
      ¬((Option.isNone c || isBlankStr c) = true ∧ isNullStr c = true) := by
    rintro c ⟨h1, h2⟩
    have hc2 : c = some "NULL" := of_decide_eq_true h2
    rw [hc2] at h1
    exact absurd h1 (by decide)
  rw [countP_add_disjoint Option.isNone isBlankStr hd1 l]
  rw [countP_add_disjoint (fun c => Option.isNone c || isBlankStr c) isNullStr hd2 l]
  have hfun : (fun c : Cell => (Option.isNone c || isBlankStr c) || isNullStr c)
      = threeFormMissing := by
    funext c
    rfl
  rw [hfun]

/-! ### The specification claims -/

/-- C2: for every missing cell at row index `i` in a column, the upward scan
examines exactly rows `i-1` down to `i-5` (bounded below by row 0) and stops at the
first non-missing value, yielding at most one "above" candidate; the downward scan
examines exactly rows `i+1` up to `i+5` (bounded above by the last row) and stops
at the first non-missing value, yielding at most one "below" candidate; the
candidate set is the union of the two and has 0, 1, or 2 elements.  The first four
conjuncts characterize the scans (`k` ranges over the window offsets, so row
`idx-(k+1)` runs over `idx-1 ... idx-5` cut off at row 0, and row `idx+1+k` over
`idx+1 ... idx+5` cut off at the last row; "stops at the first" is the
all-earlier-rows-missing condition); the last two state that the candidate list is
the at-most-one above candidate followed by the at-most-one below candidate, hence
has at most 2 elements. -/
theorem spec_C2 (col : List Cell) (idx : Nat) (v : String) :
    (scanUp col idx = some v ↔
      ∃ k, k < min 5 idx ∧ col.getD (idx - (k+1)) none = some v ∧
        ∀ j, j < k → col.getD (idx - (j+1)) none = none)
    ∧ (scanUp col idx = none ↔
      ∀ k, k < min 5 idx → col.getD (idx - (k+1)) none = none)
    ∧ (scanDown col idx = some v ↔
      ∃ k, k < min 5 (col.length - (idx+1)) ∧ col.getD (idx+1+k) none = some v ∧
        ∀ j, j < k → col.getD (idx+1+j) none = none)
    ∧ (scanDown col idx = none ↔
      ∀ k, k < min 5 (col.length - (idx+1)) → col.getD (idx+1+k) none = none)
    ∧ candidates col idx = (scanUp col idx).toList ++ (scanDown col idx).toList
    ∧ (candidates col idx).length ≤ 2 :=
  ⟨scanUp_eq_some_iff col idx v, scanUp_eq_none_iff col idx,
    scanDown_eq_some_iff col idx v, scanDown_eq_none_iff col idx,
    rfl, candidates_length_le_two col idx⟩

/-- Witness for C2 at a concrete input: the downward scan from row 6 of `exCol9`
(rows 7 and 8 in window, row 7 missing) stops at row 8 with value `"9"`. -/
theorem spec_C2_witness :
    ∃ k, k < min 5 (exCol9.length - (6+1)) ∧ exCol9.getD (6+1+k) none = some "9" ∧
      ∀ j, j < k → exCol9.getD (6+1+j) none = none :=
  (spec_C2 exCol9 6 "9").2.2.1.mp (by decide)

/-- C3: within a single column pass, missing cells are processed in ascending row
order (the missing-index list is strictly increasing); each cell's neighbor search
reads the current state of the column (the pass is literally a left fold of
`fillCell`, whose candidate search reads the fold state); a position not among the
still-to-be-processed indices is never written again, so a value filled at an
earlier row persists in the state that every later cell's search reads; and the
pass is not equivalent to a pass over a pre-pass snapshot of the column (the two
differ on `exCol9`). -/
theorem spec_C3 (ch : RNG) (col : List Cell) :
    List.Pairwise (· < ·) (missingIndices col)
    ∧ (∀ t, processColumn ch t col = (missingIndices col).foldl (fillCell ch) (col, t, 0))
    ∧ (∀ (st : List Cell × Nat × Nat) (l : List Nat) (i : Nat), i ∉ l →
        (l.foldl (fillCell ch) st).1.getD i none = st.1.getD i none)
    ∧ (processColumn chFirst 0 exCol9).1 ≠ (processColumnSnapshot chFirst 0 exCol9).1 := by
  refine ⟨missingIndices_pairwise col, fun t => rfl, ?_, by decide⟩
  intro st l i hi
  exact foldl_fill_getD_not_mem ch l st i hi

/-- Witness for C3 at a concrete input: after the steps for rows 2 and 3, the value
filled at row 1 is still in place. -/
theorem spec_C3_witness :
    (([2, 3] : List Nat).foldl (fillCell chFirst)
        (fillCell chFirst (exCol9, 0, 0) 1)).1.getD 1 none
      = (fillCell chFirst (exCol9, 0, 0) 1).1.getD 1 none :=
  (spec_C3 chFirst exCol9).2.2.1 (fillCell chFirst (exCol9, 0, 0) 1) [2, 3] 1 (by decide)

/-- C4: for every filled cell and every behaviour of the random source, the chosen
replacement is an element of the candidate set computed for that cell at fill time;
when the candidate set is empty the replacement is an element of the column's
current non-missing values; and when the column has no non-missing values the cell
remains missing (the column buffer is returned unchanged). -/
theorem spec_C4 (ch : RNG) (t r : Nat) (col : List Cell) (idx : Nat) :
    (candidates col idx ≠ [] → idx < col.length →
      ∃ v, (fillCell ch (col, t, r) idx).1.getD idx none = some v ∧ v ∈ candidates col idx)
    ∧ (candidates col idx = [] → nonNull col ≠ [] → idx < col.length →
      ∃ v, (fillCell ch (col, t, r) idx).1.getD idx none = some v ∧ v ∈ nonNull col)
    ∧ (candidates col idx = [] → nonNull col = [] →
      (fillCell ch (col, t, r) idx).1 = col) := by
  refine ⟨?_, ?_, ?_⟩
  · intro hc hlt
    rcases fillCell_cases ch (col, t, r) idx with ⟨_, he⟩ | ⟨hc2, _, _⟩ | ⟨hc2, _, _⟩
    · refine ⟨choose ch t (candidates col idx), ?_, choose_mem ch t hc⟩
      have hset := getD_set_self (l := col) (i := idx)
        (some (choose ch t (candidates col idx))) none hlt
      rw [he]
      exact hset
    · exact absurd hc2 hc
    · exact absurd hc2 hc
  · intro hc hn hlt
    rcases fillCell_cases ch (col, t, r) idx with ⟨hc2, _⟩ | ⟨_, _, he⟩ | ⟨_, hn2, _⟩
    · exact absurd hc2 (by rw [hc]; intro h; exact h rfl)
    · refine ⟨choose ch t (nonNull col), ?_, choose_mem ch t hn⟩
      have hset := getD_set_self (l := col) (i := idx)
        (some (choose ch t (nonNull col))) none hlt
      rw [he]
      exact hset
    · exact absurd hn2 hn
  · intro hc hn
    rcases fillCell_cases ch (col, t, r) idx with ⟨hc2, _⟩ | ⟨_, hn2, _⟩ | ⟨_, _, he⟩
    · exact absurd hc2 (by rw [hc]; intro h; exact h rfl)
    · exact absurd hn2 (by rw [hn]; intro h; exact h rfl)
    · rw [he]

/-- Witness for C4 at concrete inputs: a cell with a neighbour in the window is
filled from its candidate set; a cell with no in-window neighbour but a value
elsewhere in the column is filled from the column's non-missing values; a cell of
an all-missing column stays missing. -/
theorem spec_C4_witness :
    (∃ v, (fillCell chFirst ([some "5", none], 0, 0) 1).1.getD 1 none = some v ∧
      v ∈ candidates [some "5", none] 1)
    ∧ (∃ v, (fillCell chFirst ([none, none, none, none, none, none, none, some "7"], 0, 0) 0).1.getD 0 none = some v ∧
      v ∈ nonNull [none, none, none, none, none, none, none, some "7"])
    ∧ (fillCell chFirst ([none, none], 0, 0) 0).1 = [none, none] :=
  ⟨(spec_C4 chFirst 0 0 [some "5", none] 1).1 (by decide) (by decide),
    (spec_C4 chFirst 0 0 [none, none, none, none, none, none, none, some "7"] 0).2.1
      (by decide) (by decide) (by decide),
    (spec_C4 chFirst 0 0 [none, none] 0).2.2 (by decide) (by decide)⟩

/-- C6: missing-marker normalization (mapping the empty string, `"NULL"`, `"null"`
and `"None"` to the canonical missing sentinel) is idempotent: applying it twice to
any dataset yields the same dataset as applying it once. -/
theorem spec_C6 (df : Frame) :
    normalizeFrame (normalizeFrame df) = normalizeFrame df := by
  unfold normalizeFrame
  rw [List.map_map]
  apply List.map_congr_left
  intro p _
  show (p.1, (p.2.map normalizeCell).map normalizeCell) = (p.1, p.2.map normalizeCell)
  rw [List.map_map]
  exact congrArg (fun l => (p.1, l)) (List.map_congr_left (fun c _ => normalizeCell_idem c))

/-- C7 counterexample: on a dataset whose single cell is the literal string
`"null"`, the reported pre-imputation count (line 34) is 0 while the number of
cells missing under the four-form definition is 1, so the two disagree. -/
theorem spec_C7_counterexample :
    nullCountBefore [("c", [some "null"])]
      ≠ countCells fourFormMissing [("c", [some "null"])] := by decide

/-- C7 as amended: the reported pre-imputation total missing count equals the
number of cells that are the native missing sentinel, the empty string, or the
literal string `"NULL"` — the spellings `"null"` and `"None"` are normalized away
at line 38 but not included in the line-34 count. -/
theorem spec_C7 (df : Frame) :
    nullCountBefore df = countCells threeFormMissing df := by
  induction df with
  | nil => rfl
  | cons hd rest ih =>
    unfold nullCountBefore at ih ⊢
    rw [countCells_cons, countCells_cons, countCells_cons, countCells_cons]
    have hcol := countP_threeForm hd.2
    omega

/-- C1 counterexample: the claimed equivalence fails on a zero-row column.  A
column with no rows has zero missing cells after imputation (vacuously) yet
contained no non-missing value anywhere before imputation, so the stated "if and
only if" is false on that dataset. -/
theorem spec_C1_counterexample :
    ¬ ((missingCount (processColumn chFirst 0 ([] : List Cell)).1 = 0) ↔
      nonNull ([] : List Cell) ≠ []) := by decide

/-- C1 as amended: after a column pass, a column that contained at least one
non-missing value has zero missing cells; a column that is entirely missing is
returned unchanged with a replacement counter of 0; and for every column with at
least one row, the column has zero missing cells after imputation if and only if it
contained at least one non-missing value before. -/
theorem spec_C1 (ch : RNG) (t : Nat) (col : List Cell) :
    (nonNull col ≠ [] → missingCount (processColumn ch t col).1 = 0)
    ∧ ((∀ c ∈ col, c = none) → processColumn ch t col = (col, t, 0))
    ∧ (col ≠ [] →
      (missingCount (processColumn ch t col).1 = 0 ↔ nonNull col ≠ [])) := by
  refine ⟨processColumn_complete ch t col, processColumn_all_missing ch t, ?_⟩
  intro hne
  constructor
  · intro hzero hnn
    have hall := (nonNull_eq_nil_iff col).mp hnn
    rw [processColumn_all_missing ch t hall] at hzero
    change col.countP Option.isNone = 0 at hzero
    have hlen : col.countP Option.isNone = col.length :=
      List.countP_eq_length.mpr (fun a ha => by rw [hall a ha]; rfl)
    rw [hlen] at hzero
    exact hne (List.length_eq_zero.mp hzero)
  · exact processColumn_complete ch t col

/-- Witness for C1 at concrete inputs: a column with one value and one missing cell
ends with no missing cells; an all-missing column is returned unchanged with
counter 0; the equivalence holds on the first column. -/
theorem spec_C1_witness :
    missingCount (processColumn chFirst 0 [some "5", none]).1 = 0
    ∧ processColumn chFirst 0 ([none, none] : List Cell) = ([none, none], 0, 0)
    ∧ (missingCount (processColumn chFirst 0 [some "5", none]).1 = 0 ↔
      nonNull [some "5", none] ≠ []) :=
  ⟨(spec_C1 chFirst 0 [some "5", none]).1 (by decide),
    (spec_C1 chFirst 0 [none, none]).2.1 (by decide),
    (spec_C1 chFirst 0 [some "5", none]).2.2 (by decide)⟩

/-- C5: imputation leaves the column names (in order) and every column's length —
hence the row count — identical to the input's; a non-missing cell keeps its value
at its position, so only missing cells change; and `clean_csv_file` applies the
sorting-and-writing stage strictly after the imputation pass (the run on a loaded
frame is definitionally the sort/write stage of the imputed frame). -/
theorem spec_C5 (ch : RNG) (df : Frame) :
    colNames (impute ch df).1 = colNames df
    ∧ (impute ch df).1.map (fun p => p.2.length) = df.map (fun p => p.2.length)
    ∧ (∀ (t : Nat) (col : List Cell) (j : Nat) (v : String),
        col.getD j none = some v → (processColumn ch t col).1.getD j none = some v)
    ∧ (∀ (sortCol : Option String) (sorter ds : Frame → Except String Frame)
        (writer : Frame → Except String Unit),
        cleanCsvFile ch (Except.ok df) sortCol sorter ds writer
          = sortWriteStage sortCol sorter ds writer (impute ch (normalizeFrame df))) :=
  ⟨imputeGo_colNames ch df 0, imputeGo_colLengths ch df 0,
    fun t col j v h => processColumn_preserves ch t col j v h,
    fun _ _ _ _ => rfl⟩

/-- Witness for C5 at a concrete input: the non-missing cell at row 0 keeps its
value through the column pass. -/
theorem spec_C5_witness :
    (processColumn chFirst 0 [some "x", none]).1.getD 0 none = some "x" :=
  (spec_C5 chFirst []).2.2.1 0 [some "x", none] 0 "x" (by decide)

/-- C8 counterexample: a load failure and a successful run on a zero-row
single-column file return the same triple, so the result does NOT distinguish the
two cases. -/
theorem spec_C8_counterexample :
    cleanCsvFile chFirst (Except.error "read failed") none
        (fun d => Except.ok d) (fun d => Except.ok d) (fun _ => Except.ok ())
      = cleanCsvFile chFirst (Except.ok [("c", [])]) none
        (fun d => Except.ok d) (fun d => Except.ok d) (fun _ => Except.ok ()) := by
  decide

/-- C8 as amended: a load failure returns the fixed triple `(0, 0, 0)`, and a
successful run on a zero-row single-column file also returns `(0, 0, 0)`; the
returned value therefore cannot tell "zero rows because the file was empty" apart
from "zero rows because loading failed". -/
theorem spec_C8 (ch : RNG) (e : String) (sortCol : Option String)
    (sorter ds : Frame → Except String Frame) (writer : Frame → Except String Unit) :
    cleanCsvFile ch (Except.error e) sortCol sorter ds writer = (0, 0, 0)
    ∧ cleanCsvFile ch (Except.ok [("c", [])]) none sorter ds
        (fun _ => Except.ok ()) = (0, 0, 0) :=
  ⟨rfl, rfl⟩

/-- C9: the format converter fails exactly when the lower-cased extension of the
input path is none of `.csv`, `.xls`, `.xlsx`, `.json`; on failure it reaches no
branch that loads the file's contents; a `.csv` path is returned unchanged; the
other accepted extensions yield the sibling `.csv` path (the CSV representation
written next to the input). -/
theorem spec_C9 (path : String) :
    (exceptIsOk (convertToCsv path) = true ↔
      lowerExt path ∈ [".csv", ".xls", ".xlsx", ".json"])
    ∧ (exceptIsOk (convertToCsv path) = false → convertLoadsInput path = false)
    ∧ (lowerExt path = ".csv" → convertToCsv path = Except.ok path)
    ∧ ((lowerExt path = ".xls" ∨ lowerExt path = ".xlsx" ∨ lowerExt path = ".json") →
      convertToCsv path = Except.ok (rsplitStem path ++ ".csv")) := by
  unfold convertToCsv exceptIsOk convertLoadsInput
  by_cases h1 : lowerExt path = ".xls" <;>
    by_cases h2 : lowerExt path = ".xlsx" <;>
      by_cases h3 : lowerExt path = ".json" <;>
        by_cases h4 : lowerExt path = ".csv" <;>
          simp [h1, h2, h3, h4]

/-- Witness for C9 at concrete inputs: a `.json` path converts to the sibling
`.csv` path; a `.csv` path is returned as is. -/
theorem spec_C9_witness :
    convertToCsv "data.json" = Except.ok ("data" ++ ".csv")
    ∧ convertToCsv "table.csv" = Except.ok "table.csv" :=
  ⟨by
    have h := (spec_C9 "data.json").2.2.2 (by right; right; decide)
    have hs : rsplitStem "data.json" = "data" := by decide
    rw [hs] at h
    exact h,
    (spec_C9 "table.csv").2.2.1 (by decide)⟩

/-- C10 counterexample: an internal sort failure does not produce `(0, 0, 0)` —
with a two-row frame, a requested sort column present in the frame, and a sorter
that fails, the inner handler catches the failure and the run returns `(2, 1, 0)`. -/
theorem spec_C10_counterexample :
    cleanCsvFile chFirst (Except.ok [("a", [some "x", none])]) (some "a")
        (fun _ => Except.error "sort failed") (fun d => Except.ok d)
        (fun _ => Except.ok ())
      = (2, 1, 0)
    ∧ ((2, 1, 0) : Nat × Nat × Nat) ≠ (0, 0, 0) := by
  constructor
  · decide
  · decide

/-- C10 as amended: `clean_csv_file` is total at its public interface and every
failure that reaches the outer handler yields `(0, 0, 0)` — a load failure does, a
write failure does, and a failure of the date-sort branch does; but a failure of
the sort on the caller-requested column is caught by the inner handler and the run
completes exactly as if the sort had returned the frame unchanged, not with
`(0, 0, 0)`. -/
theorem spec_C10 :
    (∀ (ch : RNG) (e : String) (sortCol : Option String)
        (sorter ds : Frame → Except String Frame) (writer : Frame → Except String Unit),
      cleanCsvFile ch (Except.error e) sortCol sorter ds writer = (0, 0, 0))
    ∧ (∀ (ch : RNG) (loadRes : Except String Frame) (sortCol : Option String)
        (sorter ds : Frame → Except String Frame) (e : String),
      cleanCsvFile ch loadRes sortCol sorter ds (fun _ => Except.error e) = (0, 0, 0))
    ∧ (∀ (ch : RNG) (df : Frame) (c : String) (e : String)
        (ds : Frame → Except String Frame) (writer : Frame → Except String Unit),
      cleanCsvFile ch (Except.ok df) (some c) (fun _ => Except.error e) ds writer
        = cleanCsvFile ch (Except.ok df) (some c) (fun d => Except.ok d) ds writer)
    ∧ (∀ (ch : RNG) (df : Frame) (e : String) (writer : Frame → Except String Unit),
      "arrival_date_year" ∈ colNames (impute ch (normalizeFrame df)).1 →
      "arrival_date_month" ∈ colNames (impute ch (normalizeFrame df)).1 →
      cleanCsvFile ch (Except.ok df) none (fun d => Except.ok d)
        (fun _ => Except.error e) writer = (0, 0, 0)) := by
  refine ⟨fun ch e sc sorter ds w => rfl, ?_, ?_, ?_⟩
  · intro ch loadRes sortCol sorter ds e
    cases loadRes with
    | error e2 => rfl
    | ok df =>
      show sortWriteStage sortCol sorter ds (fun _ => Except.error e)
        (impute ch (normalizeFrame df)) = (0, 0, 0)
      unfold sortWriteStage
      cases hs : sortStage sortCol sorter ds (impute ch (normalizeFrame df)).1 with
      | error e3 => rfl
      | ok df3 => rfl
  · intro ch df c e ds writer
    show sortWriteStage (some c) (fun _ => Except.error e) ds writer
        (impute ch (normalizeFrame df))
      = sortWriteStage (some c) (fun d => Except.ok d) ds writer
        (impute ch (normalizeFrame df))
    unfold sortWriteStage sortStage
    by_cases hc : c ∈ colNames (impute ch (normalizeFrame df)).1 <;> simp [hc]
  · intro ch df e writer h1 h2
    show sortWriteStage none (fun d => Except.ok d) (fun _ => Except.error e) writer
      (impute ch (normalizeFrame df)) = (0, 0, 0)
    unfold sortWriteStage sortStage dateBranch
    simp [h1, h2]

/-- Witness for C10 at a concrete input: on a frame carrying the two hotel date
columns with a failing date sorter, the run returns `(0, 0, 0)`. -/
theorem spec_C10_witness :
    cleanCsvFile chFirst
        (Except.ok [("arrival_date_year", [some "2016"]), ("arrival_date_month", [some "July"])])
        none (fun d => Except.ok d) (fun _ => Except.error "boom")
        (fun _ => Except.ok ()) = (0, 0, 0) :=
  spec_C10.2.2.2 chFirst
    [("arrival_date_year", [some "2016"]), ("arrival_date_month", [some "July"])]
    "boom" (fun _ => Except.ok ()) (by decide) (by decide)
